import Mathlib

/-!
Verification of the rtmp-auth credential registry.

The Go sources are shallowly embedded: the protobuf `storage.Stream` and
`storage.State` records become Lean structures, each `Store` method becomes a
pure function threading the state explicitly, and the two external effects —
the durable `save` and the outbound nginx control request — are resolved by
explicit parameters (`saveOk : Bool` for whether the durable write succeeds,
and a response oracle for the control plane).  Machine `int64` fields become
`Int`; overflow plays no role in the verified properties.
-/

namespace RtmpAuth

/-- Embedding of `storage.Stream`: one credential record of the registry. -/
structure Stream where
  Id : String
  Application : String
  Name : String
  AuthKey : String
  AuthExpire : Int
  Notes : String
  Blocked : Bool
  Active : Bool
deriving DecidableEq

/-- Embedding of `storage.State`: the persisted registry state (shared secret
bytes, optional control-plane URL, ordered credential records). -/
structure State where
  Secret : List Nat
  CtrlUrl : String
  Streams : List Stream
deriving DecidableEq

/-- Decision outcome of `Store.Auth`: `granted` models a `nil` error, the other
constructors model the `authError` reasons. -/
inductive AuthResult
  | granted
  | busy
  | blocked
  | unauthorized
deriving DecidableEq

/-- Predicate used throughout the store: does the record match the (app, name)
grouping key and hold the active flag (`IsActiveByAppName` loop condition). -/
def activeOn (app name : String) (s : Stream) : Bool :=
  s.Application == app && s.Name == name && s.Active

/-- Embedding of `Store.IsActiveByAppName`: true if some stream on app/name is
active (the Go loop sets a flag without breaking, i.e. an `any` scan). -/
def IsActiveByAppName (st : State) (app name : String) : Bool :=
  st.Streams.any (activeOn app name)

/-- Match condition of the `Store.Auth` scan: exact (application, name, key). -/
def authMatch (app name key : String) (s : Stream) : Bool :=
  s.Application == app && s.Name == name && s.AuthKey == key

/-- Body of the `Store.Auth` loop over the remaining records; the conflict
check reads the whole store state `st`, exactly as the Go code does. -/
def authScan (st : State) (app name key : String) : List Stream → String × AuthResult
  | [] => ("", AuthResult.unauthorized)
  | s :: rest =>
    if authMatch app name key s then
      if s.Blocked = false then
        if s.Active = true then (s.Id, AuthResult.granted)
        else if IsActiveByAppName st app name then (s.Id, AuthResult.busy)
        else (s.Id, AuthResult.granted)
      else (s.Id, AuthResult.blocked)
    else authScan st app name key rest

/-- Embedding of `Store.Auth`: scan the records in insertion order for the
first exact (application, name, key) match and decide. -/
def Auth (st : State) (app name key : String) : String × AuthResult :=
  authScan st app name key st.Streams

theorem authScan_eq (st : State) (app name key : String) (l : List Stream) :
    authScan st app name key l =
      match l.find? (authMatch app name key) with
      | none => ("", AuthResult.unauthorized)
      | some s =>
        if s.Blocked then (s.Id, AuthResult.blocked)
        else if s.Active then (s.Id, AuthResult.granted)
        else if IsActiveByAppName st app name then (s.Id, AuthResult.busy)
        else (s.Id, AuthResult.granted) := by
  induction l with
  | nil => simp [authScan]
  | cons s rest ih =>
    by_cases hm : authMatch app name key s
    · simp only [authScan, hm, if_true, List.find?_cons_of_pos]
      by_cases hb : s.Blocked <;> by_cases ha : s.Active <;>
        simp [hb, ha]
    · simpa [authScan, hm, List.find?_cons_of_neg, hm] using ih

theorem isActive_iff_exists_other (st : State) (app name : String) (s : Stream)
    (hs : s.Active = false) :
    IsActiveByAppName st app name = true ↔
      ∃ t ∈ st.Streams, t ≠ s ∧ t.Application = app ∧ t.Name = name ∧
        t.Active = true := by
  constructor
  · intro h
    rcases List.any_eq_true.mp h with ⟨t, ht, hcond⟩
    simp only [activeOn, Bool.and_eq_true, beq_iff_eq] at hcond
    refine ⟨t, ht, ?_, hcond.1.1, hcond.1.2, hcond.2⟩
    intro he
    rw [he] at hcond
    rw [hs] at hcond
    exact Bool.false_ne_true hcond.2
  · rintro ⟨t, ht, _, h1, h2, h3⟩
    refine List.any_eq_true.mpr ⟨t, ht, ?_⟩
    simp [activeOn, h1, h2, h3]

/-- C1: `Auth` scans the records in insertion order for the first record whose
(application, name, key) all match exactly and returns: unauthorized with an
empty identifier if no record matches; blocked with the matched identifier if
the first match is blocked; granted if the first match is unblocked and
active; busy if the first match is unblocked and inactive while some other
record sharing the same (application, name) is active; granted otherwise. -/
theorem auth_spec_c1 (st : State) (app name key : String) :
    Auth st app name key =
      match st.Streams.find? (authMatch app name key) with
      | none => ("", AuthResult.unauthorized)
      | some s =>
        if s.Blocked then (s.Id, AuthResult.blocked)
        else if s.Active then (s.Id, AuthResult.granted)
        else if ∃ t ∈ st.Streams, t ≠ s ∧ t.Application = app ∧
            t.Name = name ∧ t.Active = true then (s.Id, AuthResult.busy)
        else (s.Id, AuthResult.granted) := by
  rw [Auth, authScan_eq]
  cases hf : st.Streams.find? (authMatch app name key) with
  | none => rfl
  | some s =>
    by_cases hb : s.Blocked
    · simp [hb]
    · by_cases ha : s.Active
      · simp [hb, ha]
      · have hs : s.Active = false := by simpa using ha
        have := isActive_iff_exists_other st app name s hs
        by_cases hex : ∃ t ∈ st.Streams, t ≠ s ∧ t.Application = app ∧
            t.Name = name ∧ t.Active = true
        · simp [hb, ha, hex, this.mpr hex]
        · have : IsActiveByAppName st app name = false := by
            cases hact : IsActiveByAppName st app name
            · rfl
            · exact absurd (this.mp hact) hex
          simp [hb, ha, hex, this]

/-- Error taxonomy of the store mutations: `notFound` models the
`fmt.Errorf(... not found ...)` returns, `persistenceFailure` the error
propagated from a failing `store.save()`. -/
inductive StoreErr
  | notFound
  | persistenceFailure
deriving DecidableEq

/-- Outcome of a mutating store operation: the resulting in-memory state, the
returned error (`none` models a `nil` Go error), and how many times the
durable `save` was invoked. -/
structure MutOut where
  state : State
  err : Option StoreErr
  saves : Nat
deriving DecidableEq

/-- Result of `store.save()` given whether the durable write succeeds. -/
def saveResult (saveOk : Bool) : Option StoreErr :=
  if saveOk then none else some StoreErr.persistenceFailure

/-- Embedding of `Store.GetStreamById`: first record with the identifier. -/
def GetStreamById (st : State) (id : String) : Option Stream :=
  st.Streams.find? (fun s => s.Id == id)

/-- Loop of `Store.SetActive`: set the active flag on the first record with
the identifier and return early; `none` when no record matches. -/
def setActiveList (id : String) : List Stream → Option (List Stream)
  | [] => none
  | s :: rest =>
    if s.Id == id then some ({ s with Active := true } :: rest)
    else (setActiveList id rest).map (s :: ·)

/-- Embedding of `Store.SetActive`: mark the identified record active, then
persist; NotFound when the identifier is absent; on a failed durable write the
in-memory flag stays set and the save error is returned. -/
def SetActive (saveOk : Bool) (st : State) (id : String) : MutOut :=
  match setActiveList id st.Streams with
  | some l => ⟨{ st with Streams := l }, saveResult saveOk, 1⟩
  | none => ⟨st, some StoreErr.notFound, 0⟩

/-- Mutation of the `Store.SetInactive` loop: clear the active flag on every
record matching (app, name) that is currently active. -/
def setInactiveList (app name : String) (l : List Stream) : List Stream :=
  l.map (fun s => if activeOn app name s then { s with Active := false } else s)

/-- Embedding of `Store.SetInactive`: deactivate every active record on
(app, name); when none was active, report NotFound without saving. -/
def SetInactive (saveOk : Bool) (st : State) (app name : String) : MutOut :=
  if st.Streams.any (activeOn app name) then
    ⟨{ st with Streams := setInactiveList app name st.Streams }, saveResult saveOk, 1⟩
  else ⟨st, some StoreErr.notFound, 0⟩

/-- Loop of `Store.SetBlocked`: set the blocked flag on the first record with
the identifier and return early; `none` when no record matches. -/
def setBlockedList (id : String) (b : Bool) : List Stream → Option (List Stream)
  | [] => none
  | s :: rest =>
    if s.Id == id then some ({ s with Blocked := b } :: rest)
    else (setBlockedList id b rest).map (s :: ·)

/-- Embedding of `Store.SetBlocked`: set the blocked flag on the identified
record and persist; an unknown identifier falls through the loop and returns
`nil` without saving. -/
def SetBlocked (saveOk : Bool) (st : State) (id : String) (b : Bool) : MutOut :=
  match setBlockedList id b st.Streams with
  | some l => ⟨{ st with Streams := l }, saveResult saveOk, 1⟩
  | none => ⟨st, none, 0⟩

/-- Mutation of `Store.RemoveStream`: drop the first record with the
identifier (the Go code finds its index and compacts the slice). -/
def removeFirstById (id : String) : List Stream → List Stream
  | [] => []
  | s :: rest => if s.Id == id then rest else s :: removeFirstById id rest

/-- Embedding of `Store.RemoveStream`: remove the first record with the
identifier if present, then persist unconditionally and return the save
result — an absent identifier is not reported. -/
def RemoveStream (saveOk : Bool) (st : State) (id : String) : MutOut :=
  ⟨{ st with Streams := removeFirstById id st.Streams }, saveResult saveOk, 1⟩

theorem setActiveList_none (id : String) (l : List Stream)
    (h : l.find? (fun s => s.Id == id) = none) : setActiveList id l = none := by
  induction l with
  | nil => rfl
  | cons s rest ih =>
    rw [List.find?_cons] at h
    cases hid : (s.Id == id) with
    | true => rw [hid] at h; exact absurd h (by simp)
    | false =>
      rw [hid] at h
      simp only [setActiveList, hid, Bool.false_eq_true, if_false]
      rw [ih h]
      rfl

theorem setActiveList_some (id : String) (l : List Stream) (s : Stream)
    (h : l.find? (fun t => t.Id == id) = some s) :
    ∃ l2, setActiveList id l = some l2 ∧
      { s with Active := true } ∈ l2 := by
  induction l with
  | nil => exact absurd h (by simp)
  | cons t rest ih =>
    rw [List.find?_cons] at h
    cases hid : (t.Id == id) with
    | true =>
      rw [hid] at h
      simp only [Option.some.injEq] at h
      subst h
      exact ⟨{ t with Active := true } :: rest, by simp [setActiveList, hid],
        List.mem_cons_self _ _⟩
    | false =>
      rw [hid] at h
      rcases ih h with ⟨l2, hl2, hmem⟩
      refine ⟨t :: l2, ?_, List.mem_cons_of_mem _ hmem⟩
      simp [setActiveList, hid, hl2]

/-- C5: `SetActive(id)` fails with NotFound (and saves nothing, leaving the
state unchanged) when no record has identifier `id`; when the record exists it
sets its active flag and performs the persistence write, returning the save
error — so a failed durable write yields PersistenceFailure while the
in-memory active flag is already set. -/
theorem setActive_spec_c5 (saveOk : Bool) (st : State) (id : String) :
    (GetStreamById st id = none →
      SetActive saveOk st id = ⟨st, some StoreErr.notFound, 0⟩) ∧
    (∀ s, GetStreamById st id = some s →
      (SetActive saveOk st id).saves = 1 ∧
      (∃ t ∈ (SetActive saveOk st id).state.Streams, t.Id = s.Id ∧
        t.Active = true) ∧
      (SetActive saveOk st id).err =
        (if saveOk then none else some StoreErr.persistenceFailure)) := by
  constructor
  · intro h
    rw [SetActive, setActiveList_none id st.Streams h]
  · intro s h
    rcases setActiveList_some id st.Streams s h with ⟨l2, hl2, hmem⟩
    have hsid : s.Id = id := by
      have := List.find?_some h
      simpa using this
    rw [SetActive, hl2]
    refine ⟨rfl, ⟨{ s with Active := true }, hmem, rfl, rfl⟩, rfl⟩

theorem setInactiveList_inactive (app name : String) (l : List Stream) :
    ∀ t ∈ setInactiveList app name l, t.Application = app → t.Name = name →
      t.Active = false := by
  intro t ht happ hname
  rcases List.mem_map.mp ht with ⟨u, hu, hut⟩
  by_cases hcond : activeOn app name u
  · rw [if_pos hcond] at hut
    rw [← hut]
  · rw [if_neg hcond] at hut
    subst hut
    simp only [activeOn, Bool.and_eq_true, beq_iff_eq] at hcond
    cases hact : u.Active
    · rfl
    · exact absurd ⟨⟨happ, hname⟩, hact⟩ hcond

/-- C4: `SetInactive(app, name)` with no currently-active record under that
key reports NotFound and leaves the state unchanged (no record modified, no
persistence write); with at least one active record it performs exactly one
save and afterwards every record sharing that (application, name) is
inactive, not just one. -/
theorem setInactive_spec_c4 (saveOk : Bool) (st : State) (app name : String) :
    (st.Streams.any (activeOn app name) = false →
      SetInactive saveOk st app name = ⟨st, some StoreErr.notFound, 0⟩) ∧
    (st.Streams.any (activeOn app name) = true →
      (SetInactive saveOk st app name).saves = 1 ∧
      ∀ t ∈ (SetInactive saveOk st app name).state.Streams,
        t.Application = app → t.Name = name → t.Active = false) := by
  constructor
  · intro h
    rw [SetInactive, h]
    rfl
  · intro h
    rw [SetInactive, h]
    exact ⟨rfl, setInactiveList_inactive app name st.Streams⟩

theorem setBlockedList_none (id : String) (b : Bool) (l : List Stream)
    (h : l.find? (fun s => s.Id == id) = none) : setBlockedList id b l = none := by
  induction l with
  | nil => rfl
  | cons s rest ih =>
    rw [List.find?_cons] at h
    cases hid : (s.Id == id) with
    | true => rw [hid] at h; exact absurd h (by simp)
    | false =>
      rw [hid] at h
      simp only [setBlockedList, hid, Bool.false_eq_true, if_false]
      rw [ih h]
      rfl

/-- C10: `SetBlocked(id, state)` with an identifier that matches no record
returns success (a nil error) while leaving the registry unchanged and
performing no persistence write — a silent no-op rather than NotFound. -/
theorem setBlocked_silent_c10 (saveOk : Bool) (st : State) (id : String)
    (b : Bool) (h : GetStreamById st id = none) :
    SetBlocked saveOk st id b = ⟨st, none, 0⟩ := by
  rw [SetBlocked, setBlockedList_none id b st.Streams h]

theorem removeFirstById_of_absent (id : String) (l : List Stream)
    (h : l.find? (fun s => s.Id == id) = none) : removeFirstById id l = l := by
  induction l with
  | nil => rfl
  | cons s rest ih =>
    rw [List.find?_cons] at h
    cases hid : (s.Id == id) with
    | true => rw [hid] at h; exact absurd h (by simp)
    | false =>
      rw [hid] at h
      simp only [removeFirstById, hid, Bool.false_eq_true, if_false]
      rw [ih h]

/-- C3 counterexample: for a registry holding a single record with identifier
"a", `RemoveStream "b"` does not fail with NotFound — it returns a nil error
(and still performs the persistence write), with the state unchanged. -/
theorem removeStream_counterexample_c3 :
    (GetStreamById ⟨[], "", [⟨"a", "live", "s1", "k1", -1, "", false, false⟩]⟩
        "b" = none) ∧
    (RemoveStream true
        ⟨[], "", [⟨"a", "live", "s1", "k1", -1, "", false, false⟩]⟩ "b").err
      = none ∧
    (RemoveStream true
        ⟨[], "", [⟨"a", "live", "s1", "k1", -1, "", false, false⟩]⟩ "b").state
      = ⟨[], "", [⟨"a", "live", "s1", "k1", -1, "", false, false⟩]⟩ := by
  refine ⟨by decide, by decide, by decide⟩

/-- C3 amended: `RemoveStream(id)` with an identifier that matches no record
is a silent success, not a NotFound failure: it removes nothing, leaves the
records unchanged, still performs one persistence write, and returns the save
result (nil on success, the persistence error on failure). -/
theorem removeStream_spec_c3 (saveOk : Bool) (st : State) (id : String)
    (h : GetStreamById st id = none) :
    RemoveStream saveOk st id = ⟨st, saveResult saveOk, 1⟩ := by
  rw [RemoveStream, removeFirstById_of_absent id st.Streams h]

/-- Witness for C5 at a concrete store: missing id gives NotFound, present id
gets the flag set with a persistence failure surfaced when the write fails. -/
theorem setActive_spec_c5_witness :
    (SetActive true ⟨[], "", [⟨"a", "live", "s1", "k1", -1, "", false, false⟩]⟩
        "zz" = ⟨⟨[], "", [⟨"a", "live", "s1", "k1", -1, "", false, false⟩]⟩,
          some StoreErr.notFound, 0⟩) ∧
    ((SetActive false ⟨[], "", [⟨"a", "live", "s1", "k1", -1, "", false, false⟩]⟩
        "a").err = some StoreErr.persistenceFailure) := by
  constructor
  · exact (setActive_spec_c5 true
      ⟨[], "", [⟨"a", "live", "s1", "k1", -1, "", false, false⟩]⟩ "zz").1
      (by decide)
  · exact ((setActive_spec_c5 false
      ⟨[], "", [⟨"a", "live", "s1", "k1", -1, "", false, false⟩]⟩ "a").2
      ⟨"a", "live", "s1", "k1", -1, "", false, false⟩ (by decide)).2.2

/-- Witness for C4 at a concrete store: no active record on the key gives
NotFound with nothing saved; with one active record, after the call every
record on the key is inactive. -/
theorem setInactive_spec_c4_witness :
    (SetInactive true ⟨[], "", [⟨"a", "live", "s1", "k1", -1, "", false, false⟩]⟩
        "live" "s1" = ⟨⟨[], "", [⟨"a", "live", "s1", "k1", -1, "", false, false⟩]⟩,
          some StoreErr.notFound, 0⟩) ∧
    (∀ t ∈ (SetInactive true
        ⟨[], "", [⟨"a", "live", "s1", "k1", -1, "", false, true⟩,
                  ⟨"b", "live", "s1", "k2", -1, "", false, true⟩]⟩
        "live" "s1").state.Streams,
      t.Application = "live" → t.Name = "s1" → t.Active = false) := by
  constructor
  · exact (setInactive_spec_c4 true
      ⟨[], "", [⟨"a", "live", "s1", "k1", -1, "", false, false⟩]⟩ "live" "s1").1
      (by decide)
  · exact ((setInactive_spec_c4 true
      ⟨[], "", [⟨"a", "live", "s1", "k1", -1, "", false, true⟩,
                ⟨"b", "live", "s1", "k2", -1, "", false, true⟩]⟩ "live" "s1").2
      (by decide)).2

/-- Witness for C10 at a concrete store: blocking an unknown identifier is a
silent success with no state change and no save. -/
theorem setBlocked_silent_c10_witness :
    SetBlocked true ⟨[], "", [⟨"a", "live", "s1", "k1", -1, "", false, false⟩]⟩
        "zz" true
      = ⟨⟨[], "", [⟨"a", "live", "s1", "k1", -1, "", false, false⟩]⟩, none, 0⟩ :=
  setBlocked_silent_c10 true
    ⟨[], "", [⟨"a", "live", "s1", "k1", -1, "", false, false⟩]⟩ "zz" true
    (by decide)

/-- Witness for the amended C3 at a concrete store: removing an unknown
identifier succeeds silently with one save performed. -/
theorem removeStream_spec_c3_witness :
    RemoveStream true ⟨[], "", [⟨"a", "live", "s1", "k1", -1, "", false, false⟩]⟩
        "zz"
      = ⟨⟨[], "", [⟨"a", "live", "s1", "k1", -1, "", false, false⟩]⟩, none, 1⟩ :=
  removeStream_spec_c3 true
    ⟨[], "", [⟨"a", "live", "s1", "k1", -1, "", false, false⟩]⟩ "zz"
    (by decide)

/-- Outcome of the control-plane revocation call, mirroring the
`nginxControlError` values returned by `ReqDropStreamPublisher` (`success`
models the `nil` return on a 200 response). -/
inductive CtrlResult
  | notConfigured
  | notFound
  | notActive
  | superseded
  | unreachable
  | denied (status : Nat)
  | success
deriving DecidableEq

/-- RequestSent field of the corresponding `nginxControlError` literal (for
`success` the request was sent and no error value is built); callers only log
control-plane errors whose request was actually sent. -/
def CtrlResult.requestSent : CtrlResult → Bool
  | CtrlResult.notConfigured => false
  | CtrlResult.notFound => false
  | CtrlResult.notActive => false
  | CtrlResult.superseded => false
  | CtrlResult.unreachable => true
  | CtrlResult.denied _ => true
  | CtrlResult.success => true

/-- Guard of the revocation call: is a record other than `id` active on the
same (app, name)? -/
def otherActive (st : State) (app name id : String) : Bool :=
  st.Streams.any (fun s =>
    s.Application == app && s.Name == name && s.Active && s.Id != id)

/-- Embedding of `ReqDropStreamPublisher`: the control-plane revocation.  The
oracle `resp app name` gives the relay's answer to the drop request (`none`
for a transport failure, `some code` for an HTTP status); the returned list
records the outbound requests actually issued. -/
def ReqDropStreamPublisher (resp : String → String → Option Nat)
    (saveOk : Bool) (st : State) (id : String) :
    State × CtrlResult × List (String × String) :=
  if st.CtrlUrl.length = 0 then (st, CtrlResult.notConfigured, [])
  else
    match GetStreamById st id with
    | none => (st, CtrlResult.notFound, [])
    | some stream =>
      if stream.Active = false then (st, CtrlResult.notActive, [])
      else if otherActive st stream.Application stream.Name id then
        (st, CtrlResult.superseded, [])
      else
        match resp stream.Application stream.Name with
        | none => (st, CtrlResult.unreachable, [(stream.Application, stream.Name)])
        | some code =>
          if code = 200 then
            ((SetInactive saveOk st stream.Application stream.Name).state,
              CtrlResult.success, [(stream.Application, stream.Name)])
          else (st, CtrlResult.denied code, [(stream.Application, stream.Name)])

/-- Embedding of the void `DropStreamPublisher` variant (used by the expiry
sweep): same control flow, no error value; the returned list records the
outbound requests issued. -/
def DropStreamPublisher (resp : String → String → Option Nat)
    (saveOk : Bool) (st : State) (id : String) :
    State × List (String × String) :=
  if st.CtrlUrl.length = 0 then (st, [])
  else
    match GetStreamById st id with
    | none => (st, [])
    | some stream =>
      if stream.Active = false then (st, [])
      else if otherActive st stream.Application stream.Name id then (st, [])
      else
        match resp stream.Application stream.Name with
        | none => (st, [(stream.Application, stream.Name)])
        | some code =>
          if code = 200 then
            ((SetInactive saveOk st stream.Application stream.Name).state,
              [(stream.Application, stream.Name)])
          else (st, [(stream.Application, stream.Name)])

/-- C6 counterexample: with no control-plane URL configured, an identifier
whose record is active and superseded by another active record on the same
(application, name) yields the not-configured outcome, not the superseded
condition the claim states. -/
theorem reqDrop_counterexample_c6 :
    (GetStreamById ⟨[], "", [⟨"a", "live", "s1", "k1", -1, "", false, true⟩,
        ⟨"b", "live", "s1", "k2", -1, "", false, true⟩]⟩ "a"
      = some ⟨"a", "live", "s1", "k1", -1, "", false, true⟩) ∧
    (⟨"b", "live", "s1", "k2", -1, "", false, true⟩ : Stream) ∈
      (⟨[], "", [⟨"a", "live", "s1", "k1", -1, "", false, true⟩,
        ⟨"b", "live", "s1", "k2", -1, "", false, true⟩]⟩ : State).Streams ∧
    ((ReqDropStreamPublisher (fun _ _ => some 200) true
        ⟨[], "", [⟨"a", "live", "s1", "k1", -1, "", false, true⟩,
          ⟨"b", "live", "s1", "k2", -1, "", false, true⟩]⟩ "a").2.1
      = CtrlResult.notConfigured) ∧
    CtrlResult.notConfigured ≠ CtrlResult.superseded := by
  refine ⟨by decide, by decide, by decide, by decide⟩

/-- C6 amended: when a control-plane URL is configured and the record found
for `id` is active, if some other record sharing the same (application, name)
is also active, the revocation issues no outbound request, changes no state,
and reports the superseded condition. -/
theorem reqDrop_superseded_c6 (resp : String → String → Option Nat)
    (saveOk : Bool) (st : State) (id : String) (s : Stream)
    (hurl : st.CtrlUrl.length ≠ 0)
    (hget : GetStreamById st id = some s)
    (hact : s.Active = true)
    (hother : ∃ t ∈ st.Streams, t.Application = s.Application ∧
      t.Name = s.Name ∧ t.Active = true ∧ t.Id ≠ id) :
    ReqDropStreamPublisher resp saveOk st id = (st, CtrlResult.superseded, []) := by
  have hoa : otherActive st s.Application s.Name id = true := by
    rcases hother with ⟨t, ht, h1, h2, h3, h4⟩
    refine List.any_eq_true.mpr ⟨t, ht, ?_⟩
    simp [h1, h2, h3, h4]
  rw [ReqDropStreamPublisher, if_neg hurl, hget]
  simp [hact, hoa]

/-- Witness for the amended C6: configured URL, active record "a", other
active record "b" on the same app/name — superseded, no request, no change. -/
theorem reqDrop_superseded_c6_witness :
    ReqDropStreamPublisher (fun _ _ => some 200) true
        ⟨[], "http://c", [⟨"a", "live", "s1", "k1", -1, "", false, true⟩,
          ⟨"b", "live", "s1", "k2", -1, "", false, true⟩]⟩ "a"
      = (⟨[], "http://c", [⟨"a", "live", "s1", "k1", -1, "", false, true⟩,
          ⟨"b", "live", "s1", "k2", -1, "", false, true⟩]⟩,
          CtrlResult.superseded, []) :=
  reqDrop_superseded_c6 (fun _ _ => some 200) true
    ⟨[], "http://c", [⟨"a", "live", "s1", "k1", -1, "", false, true⟩,
      ⟨"b", "live", "s1", "k2", -1, "", false, true⟩]⟩ "a"
    ⟨"a", "live", "s1", "k1", -1, "", false, true⟩
    (by decide) (by decide) (by decide)
    ⟨⟨"b", "live", "s1", "k2", -1, "", false, true⟩, by decide, by decide,
      by decide, by decide, by decide⟩

/-- C7 counterexample: with an empty control-plane URL,
`ReqDropStreamPublisher` does return an error value (the not-configured
`nginxControlError`), not the success (`nil`) result the claim states — even
though it makes no request and changes no state. -/
theorem reqDrop_counterexample_c7 :
    ((ReqDropStreamPublisher (fun _ _ => some 200) true
        ⟨[], "", [⟨"a", "live", "s1", "k1", -1, "", false, true⟩]⟩ "a").2.1
      = CtrlResult.notConfigured) ∧
    CtrlResult.notConfigured ≠ CtrlResult.success := by
  refine ⟨by decide, by decide⟩

/-- C7 amended: with an empty control-plane URL, revocation is a no-op on the
registry and issues no outbound request for any identifier; the void
`DropStreamPublisher` variant returns silently, while `ReqDropStreamPublisher`
returns a not-configured error value marked request-not-sent (which its
callers discard without logging) rather than a nil error. -/
theorem drop_notConfigured_c7 (resp : String → String → Option Nat)
    (saveOk : Bool) (st : State) (id : String) (h : st.CtrlUrl = "") :
    ReqDropStreamPublisher resp saveOk st id = (st, CtrlResult.notConfigured, []) ∧
    DropStreamPublisher resp saveOk st id = (st, []) ∧
    CtrlResult.notConfigured.requestSent = false := by
  have hlen : st.CtrlUrl.length = 0 := by rw [h]; rfl
  exact ⟨by rw [ReqDropStreamPublisher, if_pos hlen],
    by rw [DropStreamPublisher, if_pos hlen], rfl⟩

/-- Witness for the amended C7 at a concrete unconfigured store. -/
theorem drop_notConfigured_c7_witness :
    ReqDropStreamPublisher (fun _ _ => some 200) true
        ⟨[], "", [⟨"a", "live", "s1", "k1", -1, "", false, true⟩]⟩ "a"
      = (⟨[], "", [⟨"a", "live", "s1", "k1", -1, "", false, true⟩]⟩,
          CtrlResult.notConfigured, []) :=
  (drop_notConfigured_c7 (fun _ _ => some 200) true
    ⟨[], "", [⟨"a", "live", "s1", "k1", -1, "", false, true⟩]⟩ "a" rfl).1

/-- Collection condition of the `Store.Expire` scan: the expiry is not the
never sentinel and lies strictly before the sweep time. -/
def expired (now : Int) (s : Stream) : Bool :=
  s.AuthExpire != -1 && decide (s.AuthExpire < now)

/-- Body of the `Store.Expire` action loop: best-effort drop of the publisher
followed by removal of the record. -/
def sweepStep (resp : String → String → Option Nat) (saveOk : Bool)
    (acc : State) (id : String) : State :=
  (RemoveStream saveOk (DropStreamPublisher resp saveOk acc id).1 id).state

/-- Embedding of `Store.Expire`: collect the identifiers of the records whose
expiry is set and strictly before `now` from the scanned state, then drop and
remove each collected identifier in order. -/
def Expire (resp : String → String → Option Nat) (saveOk : Bool)
    (st : State) (now : Int) : State :=
  ((st.Streams.filter (expired now)).map Stream.Id).foldl
    (sweepStep resp saveOk) st

theorem removeFirstById_sublist (id : String) (l : List Stream) :
    (removeFirstById id l).Sublist l := by
  induction l with
  | nil => simp [removeFirstById]
  | cons s rest ih =>
    rw [removeFirstById]
    by_cases h : (s.Id == id) = true
    · rw [if_pos h]
      exact List.sublist_cons_self s rest
    · rw [if_neg h]
      exact ih.cons₂ s

theorem setInactiveList_id (app name : String) (l : List Stream)
    (h : ∀ t ∈ l, activeOn app name t = false) :
    setInactiveList app name l = l := by
  induction l with
  | nil => rfl
  | cons s rest ih =>
    rw [setInactiveList, List.map_cons]
    rw [h s (List.mem_cons_self s rest)]
    rw [if_neg (by simp)]
    have : setInactiveList app name rest = rest :=
      ih (fun t ht => h t (List.mem_cons_of_mem s ht))
    rw [setInactiveList] at this
    rw [this]

theorem removeFirst_setInactive (id app name : String) (l : List Stream)
    (hnodup : (l.map Stream.Id).Nodup)
    (hguard : ∀ s ∈ l, s.Application = app → s.Name = name →
      s.Active = true → s.Id = id) :
    removeFirstById id (setInactiveList app name l) = removeFirstById id l := by
  induction l with
  | nil => rfl
  | cons s rest ih =>
    rw [List.map_cons, List.nodup_cons] at hnodup
    rw [setInactiveList, List.map_cons]
    have hfid : (if activeOn app name s then { s with Active := false } else s).Id
        = s.Id := by
      by_cases h : activeOn app name s <;> simp [h]
    by_cases hsid : (s.Id == id) = true
    · rw [removeFirstById, hfid, if_pos hsid, removeFirstById, if_pos hsid]
      have hid : s.Id = id := by simpa using hsid
      refine setInactiveList_id app name rest (fun t ht => ?_)
      cases hcond : activeOn app name t
      · rfl
      · simp only [activeOn, Bool.and_eq_true, beq_iff_eq] at hcond
        have : t.Id = id := hguard t (List.mem_cons_of_mem s ht)
          hcond.1.1 hcond.1.2 hcond.2
        exact absurd (by rw [hid, ← this]; exact List.mem_map_of_mem Stream.Id ht)
          hnodup.1
    · have hcond : activeOn app name s = false := by
        cases hc : activeOn app name s
        · rfl
        · simp only [activeOn, Bool.and_eq_true, beq_iff_eq] at hc
          have : s.Id = id := hguard s (List.mem_cons_self s rest)
            hc.1.1 hc.1.2 hc.2
          exact absurd (by simpa using this) hsid
      rw [hcond, if_neg (by simp)]
      rw [removeFirstById, if_neg hsid, removeFirstById, if_neg hsid]
      have := ih hnodup.2 (fun t ht => hguard t (List.mem_cons_of_mem s ht))
      rw [setInactiveList] at this
      rw [this]

theorem removeStream_drop (resp : String → String → Option Nat) (saveOk : Bool)
    (st : State) (id : String) (h : (st.Streams.map Stream.Id).Nodup) :
    RemoveStream saveOk (DropStreamPublisher resp saveOk st id).1 id
      = RemoveStream saveOk st id := by
  rw [DropStreamPublisher]
  by_cases hurl : st.CtrlUrl.length = 0
  · rw [if_pos hurl]
  · rw [if_neg hurl]
    cases hget : GetStreamById st id with
    | none => rfl
    | some stream =>
      dsimp only
      by_cases hact : stream.Active = false
      · rw [if_pos hact]
      · rw [if_neg hact]
        by_cases hoa : otherActive st stream.Application stream.Name id
        · rw [if_pos hoa]
        · rw [if_neg hoa]
          cases hresp : resp stream.Application stream.Name with
          | none => rfl
          | some code =>
            dsimp only
            by_cases hcode : code = 200
            · rw [if_pos hcode]
              have hguard : ∀ s ∈ st.Streams, s.Application = stream.Application →
                  s.Name = stream.Name → s.Active = true → s.Id = id := by
                intro s hs h1 h2 h3
                by_contra hne
                refine absurd ?_ hoa
                refine List.any_eq_true.mpr ⟨s, hs, ?_⟩
                simp [h1, h2, h3, hne]
              rw [SetInactive]
              by_cases hany : st.Streams.any (activeOn stream.Application stream.Name)
              · rw [if_pos hany]
                rw [RemoveStream, RemoveStream]
                simp only
                rw [removeFirst_setInactive id stream.Application stream.Name
                  st.Streams h hguard]
              · rw [if_neg hany]
            · rw [if_neg hcode]

theorem sweep_fold (resp : String → String → Option Nat) (saveOk : Bool)
    (ids : List String) :
    ∀ st : State, (st.Streams.map Stream.Id).Nodup →
      ids.foldl (sweepStep resp saveOk) st
        = { st with Streams :=
            ids.foldl (fun l i => removeFirstById i l) st.Streams } := by
  induction ids with
  | nil => intro st _; rfl
  | cons i ids ih =>
    intro st hnodup
    rw [List.foldl_cons, List.foldl_cons]
    have hstep : sweepStep resp saveOk st i
        = { st with Streams := removeFirstById i st.Streams } := by
      rw [sweepStep, removeStream_drop resp saveOk st i hnodup, RemoveStream]
    rw [hstep]
    refine ih { st with Streams := removeFirstById i st.Streams } ?_
    exact hnodup.sublist ((removeFirstById_sublist i st.Streams).map Stream.Id)

theorem removeIds_skip (ids : List String) :
    ∀ (l : List Stream) (s : Stream), s.Id ∉ ids →
      ids.foldl (fun l i => removeFirstById i l) (s :: l)
        = s :: ids.foldl (fun l i => removeFirstById i l) l := by
  induction ids with
  | nil => intro l s _; rfl
  | cons i ids ih =>
    intro l s hs
    rw [List.mem_cons, not_or] at hs
    rw [List.foldl_cons, List.foldl_cons]
    have : removeFirstById i (s :: l) = s :: removeFirstById i l := by
      rw [removeFirstById, if_neg (by simpa using hs.1)]
    rw [this]
    exact ih (removeFirstById i l) s hs.2

theorem removeIds_filter (p : Stream → Bool) :
    ∀ l : List Stream, (l.map Stream.Id).Nodup →
      ((l.filter p).map Stream.Id).foldl (fun l i => removeFirstById i l) l
        = l.filter (fun s => !(p s)) := by
  intro l
  induction l with
  | nil => intro _; rfl
  | cons s rest ih =>
    intro hnodup
    rw [List.map_cons, List.nodup_cons] at hnodup
    by_cases hp : p s = true
    · rw [List.filter_cons_of_pos hp, List.map_cons, List.foldl_cons]
      have : removeFirstById s.Id (s :: rest) = rest := by
        rw [removeFirstById, if_pos (by simp)]
      rw [this, ih hnodup.2]
      rw [List.filter_cons_of_neg (by simp [hp])]
    · have hps : p s = false := by simpa using hp
      rw [List.filter_cons_of_neg (by simp [hps]), removeIds_skip _ rest s ?_,
        ih hnodup.2, List.filter_cons_of_pos (by simp [hps])]
      intro hmem
      rcases List.mem_map.mp hmem with ⟨t, htf, hts⟩
      exact hnodup.1 (hts ▸ List.mem_map_of_mem Stream.Id
        (List.mem_of_mem_filter htf))

/-- C2 counterexample: a record whose expiry equals the sweep time (expiry 5,
sweep at t = 5, and 5 ≤ 5) is not removed by one sweeper cycle — the scan
collects only expiries strictly before the sweep time. -/
theorem expire_counterexample_c2 :
    ((5 : Int) ≠ -1 ∧ (5 : Int) ≤ 5) ∧
    Expire (fun _ _ => none) true
        ⟨[], "", [⟨"a", "live", "s1", "k1", 5, "", false, false⟩]⟩ 5
      = ⟨[], "", [⟨"a", "live", "s1", "k1", 5, "", false, false⟩]⟩ := by
  refine ⟨by decide, by decide⟩

/-- C2 amended: for every registry state with pairwise-distinct record
identifiers and every sweep time t, one sweeper cycle removes exactly the
records whose expiry is not the never sentinel (-1) and is strictly before t;
every other record is left unmodified (and the secret and control URL are
untouched), for every control-plane response behaviour and save outcome. -/
theorem expire_spec_c2 (resp : String → String → Option Nat) (saveOk : Bool)
    (st : State) (now : Int) (h : (st.Streams.map Stream.Id).Nodup) :
    Expire resp saveOk st now
      = { st with Streams := st.Streams.filter (fun s => !(expired now s)) } := by
  rw [Expire, sweep_fold resp saveOk _ st h]
  rw [removeIds_filter (expired now) st.Streams h]

/-- Witness for the amended C2: of two records, only the one expiring strictly
before the sweep time is removed; the other keeps all its fields. -/
theorem expire_spec_c2_witness :
    Expire (fun _ _ => none) true
        ⟨[], "", [⟨"a", "live", "s1", "k1", 3, "", false, false⟩,
          ⟨"b", "live", "s2", "k2", -1, "", false, true⟩]⟩ 5
      = ⟨[], "", [⟨"b", "live", "s2", "k2", -1, "", false, true⟩]⟩ :=
  expire_spec_c2 (fun _ _ => none) true
    ⟨[], "", [⟨"a", "live", "s1", "k1", 3, "", false, false⟩,
      ⟨"b", "live", "s2", "k2", -1, "", false, true⟩]⟩ 5 (by decide)

/-- Character class of the duration regex groups (digits and dots). -/
def isDigitOrDot (c : Char) : Bool :=
  c.isDigit || c == '.'

/-- One optional duration regex group: greedily take a nonempty digits-or-dots
run followed by the unit letter; on failure the scan position is unchanged.
This is exactly the behaviour of one optional group of Go's anchored-at-P
duration pattern, where the character class excludes every unit letter. -/
def matchPart (unit : Char) (cs : List Char) : Option (List Char) × List Char :=
  let run := cs.takeWhile isDigitOrDot
  let rest := cs.dropWhile isDigitOrDot
  if run ≠ [] ∧ rest.head? = some unit then (some run, rest.tail) else (none, cs)

/-- Numeric value of a digit list (most significant first). -/
def natFromDigits (cs : List Char) : Nat :=
  cs.foldl (fun n c => n * 10 + (c.toNat - 48)) 0

/-- Decimal numeral over the digits-and-dots class, as accepted by
`strconv.ParseFloat`: digits with at most one dot and at least one digit.
Returns the mantissa and the number of fractional digits; the arithmetic is
carried out exactly (Go's float64 is exact on the values the program uses). -/
def parseDec (cs : List Char) : Option (Nat × Nat) :=
  match cs.dropWhile Char.isDigit with
  | [] => if cs = [] then none else some (natFromDigits cs, 0)
  | c :: frac =>
    if c = '.' then
      if frac.all Char.isDigit ∧ (cs.takeWhile Char.isDigit ≠ [] ∨ frac ≠ []) then
        some (natFromDigits (cs.takeWhile Char.isDigit ++ frac), frac.length)
      else none
    else none

/-- Embedding of `parseDurationPart`: value of one regex group times its unit
in nanoseconds, truncated to an integer duration; an absent group or an
unparseable numeral contributes zero.  The Go original computes
`time.Duration(float64(unit) * parsed)`: the exact arithmetic used here
agrees with it exactly when the product is float64-representable and within
int64 range, the domain to which every theorem below restricts itself;
beyond it float64 rounds and an out-of-range float-to-int64 conversion is
implementation-specific in Go, so no theorem asserts anything there. -/
def parseDurationPart (part : Option (List Char)) (unitNs : Nat) : Nat :=
  match part with
  | none => 0
  | some run =>
    match parseDec run with
    | none => 0
    | some (m, k) => m * unitNs / 10 ^ k

/-- Suffix of the input after its first 'P', if any: Go's unanchored
`FindStringSubmatch` on the duration pattern succeeds exactly when the input
contains a 'P' (everything after the literal P is optional) and matches at
the first one. -/
def findP : List Char → Option (List Char)
  | [] => none
  | c :: rest => if c = 'P' then some rest else findP rest

/-- Total of the duration groups scanned after the first 'P', in nanoseconds:
years (365 days), months (30 days), days, an optional 'T', hours, minutes,
seconds — the group structure of the regex in `main.go`.  The Go original
sums int64 `time.Duration` values, which wrap on overflow (about 292 years
of nanoseconds); this exact Nat total agrees with the original whenever it
stays below 2^63, the bound every theorem below carries as a hypothesis. -/
def durTotalNs (cs : List Char) : Nat :=
  let r1 := matchPart 'Y' cs
  let r2 := matchPart 'M' r1.2
  let r3 := matchPart 'D' r2.2
  let cs4 := if r3.2.head? = some 'T' then r3.2.tail else r3.2
  let r4 := matchPart 'H' cs4
  let r5 := matchPart 'M' r4.2
  let r6 := matchPart 'S' r5.2
  parseDurationPart r1.1 31536000000000000 +
    parseDurationPart r2.1 2592000000000000 +
    parseDurationPart r3.1 86400000000000 +
    parseDurationPart r4.1 3600000000000 +
    parseDurationPart r5.1 60000000000 +
    parseDurationPart r6.1 1000000000

/-- Embedding of `ParseExpiry`.  `nowNs` is the current time in nanoseconds
since the epoch; `rfc` is the RFC3339 absolute-time parser (`time.Parse`,
Go standard library) returning Unix seconds.  Empty input is the never
sentinel; input containing a 'P' takes the duration path (a zero total is a
validation failure); everything else is tried as an absolute timestamp. -/
def ParseExpiry (nowNs : Int) (rfc : String → Option Int) (str : String) :
    Option Int :=
  if str = "" then some (-1)
  else
    match findP str.data with
    | some afterP =>
      if durTotalNs afterP = 0 then none
      else some ((nowNs + (durTotalNs afterP : Int)).fdiv 1000000000)
    | none => rfc str

theorem takeWhile_append_stop (p : Char → Bool) (l : List Char) (c : Char)
    (r : List Char) (hl : ∀ x ∈ l, p x = true) (hc : p c = false) :
    (l ++ c :: r).takeWhile p = l ∧ (l ++ c :: r).dropWhile p = c :: r := by
  induction l with
  | nil =>
    constructor
    · rw [List.nil_append, List.takeWhile_cons, hc]
      rfl
    · rw [List.nil_append, List.dropWhile_cons, hc]
      rfl
  | cons a l ih =>
    have ha : p a = true := hl a (List.mem_cons_self a l)
    have := ih (fun x hx => hl x (List.mem_cons_of_mem a hx))
    constructor
    · rw [List.cons_append, List.takeWhile_cons, ha, if_pos rfl, this.1]
    · rw [List.cons_append, List.dropWhile_cons, ha, if_pos rfl, this.2]

theorem matchPart_found (unit : Char) (run rest : List Char) (hne : run ≠ [])
    (hdig : ∀ x ∈ run, isDigitOrDot x = true) (hu : isDigitOrDot unit = false) :
    matchPart unit (run ++ unit :: rest) = (some run, rest) := by
  obtain ⟨ht, hd⟩ := takeWhile_append_stop isDigitOrDot run unit rest hdig hu
  rw [matchPart]
  simp only [ht, hd]
  rw [if_pos ⟨hne, rfl⟩]
  rfl

theorem matchPart_skip (unit : Char) (run : List Char) (c : Char)
    (rest : List Char) (hdig : ∀ x ∈ run, isDigitOrDot x = true)
    (hc : isDigitOrDot c = false) (hne : c ≠ unit) :
    matchPart unit (run ++ c :: rest) = (none, run ++ c :: rest) := by
  obtain ⟨ht, hd⟩ := takeWhile_append_stop isDigitOrDot run c rest hdig hc
  rw [matchPart]
  simp only [ht, hd]
  rw [if_neg]
  rintro ⟨-, hu⟩
  rw [List.head?_cons] at hu
  exact hne (Option.some_inj.mp hu)

theorem parseDec_digits (run : List Char) (hne : run ≠ [])
    (hdig : ∀ x ∈ run, x.isDigit = true) :
    parseDec run = some (natFromDigits run, 0) := by
  have hdrop : run.dropWhile Char.isDigit = [] := by
    induction run with
    | nil => rfl
    | cons a l ih =>
      rw [List.dropWhile_cons, hdig a (List.mem_cons_self a l), if_pos rfl]
      by_cases hl : l = []
      · rw [hl]; rfl
      · exact List.dropWhile_eq_nil_iff.mpr
          (fun x hx => hdig x (List.mem_cons_of_mem a hx))
  rw [parseDec, hdrop, if_neg hne]

theorem parseDurationPart_digits (run : List Char) (unitNs : Nat)
    (hne : run ≠ []) (hdig : ∀ x ∈ run, x.isDigit = true) :
    parseDurationPart (some run) unitNs = natFromDigits run * unitNs := by
  unfold parseDurationPart
  dsimp only
  rw [parseDec_digits run hne hdig]
  dsimp only
  rw [pow_zero, Nat.div_one]

theorem findP_eq_none (l : List Char) (h : 'P' ∉ l) : findP l = none := by
  induction l with
  | nil => rfl
  | cons c rest ih =>
    rw [List.mem_cons, not_or] at h
    rw [findP, if_neg (fun he => h.1 he.symm)]
    exact ih h.2

/-- Character list of a canonical full duration specification
P&lt;y&gt;Y&lt;mo&gt;M&lt;d&gt;DT&lt;h&gt;H&lt;mi&gt;M&lt;s&gt;S, without the leading P. -/
def durCanon (y mo d h mi sec : List Char) : List Char :=
  y ++ ('Y' :: (mo ++ ('M' :: (d ++ ('D' :: ('T' :: (h ++ ('H' ::
    (mi ++ ('M' :: (sec ++ ['S'])))))))))))

/-- Exact nanosecond total of a canonical duration's integer components. -/
def canonTotalNs (y mo d h mi sec : List Char) : Nat :=
  natFromDigits y * 31536000000000000 +
    natFromDigits mo * 2592000000000000 +
    natFromDigits d * 86400000000000 +
    natFromDigits h * 3600000000000 +
    natFromDigits mi * 60000000000 +
    natFromDigits sec * 1000000000

theorem durTotal_canonical (y mo d h mi sec : List Char)
    (hy : y ≠ [] ∧ ∀ x ∈ y, x.isDigit = true)
    (hmo : mo ≠ [] ∧ ∀ x ∈ mo, x.isDigit = true)
    (hd : d ≠ [] ∧ ∀ x ∈ d, x.isDigit = true)
    (hh : h ≠ [] ∧ ∀ x ∈ h, x.isDigit = true)
    (hmi : mi ≠ [] ∧ ∀ x ∈ mi, x.isDigit = true)
    (hsec : sec ≠ [] ∧ ∀ x ∈ sec, x.isDigit = true) :
    durTotalNs (durCanon y mo d h mi sec)
      = canonTotalNs y mo d h mi sec := by
  rw [canonTotalNs]
  have cy : ∀ x ∈ y, isDigitOrDot x = true := by
    intro x hx; rw [isDigitOrDot, hy.2 x hx]; rfl
  have cmo : ∀ x ∈ mo, isDigitOrDot x = true := by
    intro x hx; rw [isDigitOrDot, hmo.2 x hx]; rfl
  have cd : ∀ x ∈ d, isDigitOrDot x = true := by
    intro x hx; rw [isDigitOrDot, hd.2 x hx]; rfl
  have ch : ∀ x ∈ h, isDigitOrDot x = true := by
    intro x hx; rw [isDigitOrDot, hh.2 x hx]; rfl
  have cmi : ∀ x ∈ mi, isDigitOrDot x = true := by
    intro x hx; rw [isDigitOrDot, hmi.2 x hx]; rfl
  have csec : ∀ x ∈ sec, isDigitOrDot x = true := by
    intro x hx; rw [isDigitOrDot, hsec.2 x hx]; rfl
  simp only [durCanon, durTotalNs]
  rw [matchPart_found 'Y' y _ hy.1 cy (by decide)]
  rw [matchPart_found 'M' mo _ hmo.1 cmo (by decide)]
  rw [matchPart_found 'D' d _ hd.1 cd (by decide)]
  simp only [List.head?_cons, List.tail_cons, eq_self_iff_true, if_true]
  rw [matchPart_found 'H' h _ hh.1 ch (by decide)]
  rw [matchPart_found 'M' mi _ hmi.1 cmi (by decide)]
  rw [matchPart_found 'S' sec _ hsec.1 csec (by decide)]
  rw [parseDurationPart_digits y _ hy.1 hy.2,
    parseDurationPart_digits mo _ hmo.1 hmo.2,
    parseDurationPart_digits d _ hd.1 hd.2,
    parseDurationPart_digits h _ hh.1 hh.2,
    parseDurationPart_digits mi _ hmi.1 hmi.2,
    parseDurationPart_digits sec _ hsec.1 hsec.2]

/-- C9 counterexample: the valid zero-length ISO-8601 duration "PT0S" is
rejected (nil) instead of yielding a timestamp, and the unparseable value
"xP5Dx" yields a timestamp (the embedded "P5D" substring is accepted by the
unanchored duration regex) instead of a validation error. -/
theorem parseExpiry_counterexample_c9 :
    ParseExpiry 0 (fun _ => none) "PT0S" = none ∧
    ParseExpiry 0 (fun _ => none) "xP5Dx" = some 432000 := by
  refine ⟨by decide, by decide⟩

/-- C9 amended: `ParseExpiry` never crashes (it is total) and behaves as
follows.  The empty string gives the never sentinel -1.  A string containing
no 'P' is handed to the RFC3339 absolute-time parser: its timestamp when
valid, nil otherwise.  A string containing 'P' takes the duration path keyed
on the first 'P' (even when embedded in otherwise unparseable text): for a
canonical integer duration P&lt;y&gt;Y&lt;mo&gt;M&lt;d&gt;DT&lt;h&gt;H&lt;mi&gt;M&lt;s&gt;S whose seconds
component is at most 4000000000 and whose nanosecond total stays below 2^63
— the range over which Go's float64 products and int64 duration sum are
exact — the result is now plus the total (years of 365 days, months of 30
days) in Unix seconds, except that a zero total, e.g. the valid duration
"PT0S", is rejected with nil. -/
theorem parseExpiry_spec_c9 (nowNs : Int) (rfc : String → Option Int) :
    (ParseExpiry nowNs rfc "" = some (-1)) ∧
    (∀ s : String, s ≠ "" → 'P' ∉ s.data → ParseExpiry nowNs rfc s = rfc s) ∧
    (∀ y mo d h mi sec : List Char,
      (y ≠ [] ∧ ∀ x ∈ y, x.isDigit = true) →
      (mo ≠ [] ∧ ∀ x ∈ mo, x.isDigit = true) →
      (d ≠ [] ∧ ∀ x ∈ d, x.isDigit = true) →
      (h ≠ [] ∧ ∀ x ∈ h, x.isDigit = true) →
      (mi ≠ [] ∧ ∀ x ∈ mi, x.isDigit = true) →
      (sec ≠ [] ∧ ∀ x ∈ sec, x.isDigit = true) →
      natFromDigits sec ≤ 4000000000 →
      canonTotalNs y mo d h mi sec < 9223372036854775808 →
      ParseExpiry nowNs rfc (String.mk ('P' :: durCanon y mo d h mi sec))
        = (if canonTotalNs y mo d h mi sec = 0
           then none
           else some ((nowNs + (canonTotalNs y mo d h mi sec : Nat)).fdiv
             1000000000))) := by
  refine ⟨by rw [ParseExpiry, if_pos rfl], ?_, ?_⟩
  · intro s hs hp
    rw [ParseExpiry, if_neg hs, findP_eq_none s.data hp]
  · intro y mo d h mi sec hy hmo hd hh hmi hsec hsmall hrange
    have hne : String.mk ('P' :: durCanon y mo d h mi sec) ≠ "" := by
      intro he
      have : ('P' :: durCanon y mo d h mi sec) = [] :=
        congrArg String.data he
      exact List.cons_ne_nil _ _ this
    rw [ParseExpiry, if_neg hne]
    have hdata : (String.mk ('P' :: durCanon y mo d h mi sec)).data
        = 'P' :: durCanon y mo d h mi sec := rfl
    rw [hdata, findP, if_pos rfl]
    dsimp only
    rw [durTotal_canonical y mo d h mi sec hy hmo hd hh hmi hsec]

/-- Witness for the amended C9: the canonical duration P1Y2M3DT4H5M6S (well
inside the exact range) added to epoch nanosecond zero gives 36993906 Unix
seconds. -/
theorem parseExpiry_spec_c9_witness :
    ParseExpiry 0 (fun _ => none) "P1Y2M3DT4H5M6S" = some 36993906 := by
  have h := (parseExpiry_spec_c9 0 (fun _ => none)).2.2
    ['1'] ['2'] ['3'] ['4'] ['5'] ['6']
    (by decide) (by decide) (by decide) (by decide) (by decide) (by decide)
    (by decide) (by decide)
  have hs : String.mk ('P' :: durCanon ['1'] ['2'] ['3'] ['4'] ['5'] ['6'])
      = "P1Y2M3DT4H5M6S" := by decide
  rw [hs] at h
  exact h.trans (by decide)

/-- Modelled from the spec: the persisted binary envelope of section 6 (the
protobuf codec of the generated `storage` package is not among the sources).
The blob is a token list carrying, in order: the secret bytes
(length-prefixed), the control-plane URL (length-prefixed character codes),
and the record count followed by each record's fields. -/
def encodeString (s : String) : List Nat :=
  s.data.length :: s.data.map Char.toNat

/-- Field encoding of a signed 64-bit expiry: sign marker then magnitude, so
the -1 never sentinel is preserved exactly. -/
def encodeInt (i : Int) : List Nat :=
  if i < 0 then [1, (-i).toNat] else [0, i.toNat]

/-- Field encoding of a boolean flag. -/
def encodeBool (b : Bool) : List Nat :=
  [if b then 1 else 0]

/-- Envelope encoding of one credential record, every field in order. -/
def encodeStream (s : Stream) : List Nat :=
  encodeString s.Id ++ (encodeString s.Application ++ (encodeString s.Name ++
    (encodeString s.AuthKey ++ (encodeInt s.AuthExpire ++
      (encodeString s.Notes ++ (encodeBool s.Blocked ++ encodeBool s.Active))))))

/-- Envelope encoding of the record list body. -/
def encodeStreams : List Stream → List Nat
  | [] => []
  | s :: rest => encodeStream s ++ encodeStreams rest

/-- Embedding of `Store.save` restricted to its serialization content: the
full state as one blob (the temporary-file write and atomic rename do not
change the bytes). -/
def save (st : State) : List Nat :=
  st.Secret.length :: (st.Secret ++ (encodeString st.CtrlUrl ++
    (st.Streams.length :: encodeStreams st.Streams)))

/-- Take `n` tokens from the blob. -/
def decodeList : Nat → List Nat → Option (List Nat × List Nat)
  | 0, toks => some ([], toks)
  | _ + 1, [] => none
  | n + 1, t :: ts => (decodeList n ts).map (fun p => (t :: p.1, p.2))

/-- Decode a length-prefixed string. -/
def decodeString (toks : List Nat) : Option (String × List Nat) :=
  match toks with
  | [] => none
  | n :: rest =>
    (decodeList n rest).map (fun p => (String.mk (p.1.map Char.ofNat), p.2))

/-- Decode a sign-and-magnitude integer field. -/
def decodeInt (toks : List Nat) : Option (Int × List Nat) :=
  match toks with
  | sign :: m :: rest =>
    if sign = 1 then some (-(m : Int), rest) else some ((m : Int), rest)
  | _ => none

/-- Decode a boolean field. -/
def decodeBool (toks : List Nat) : Option (Bool × List Nat) :=
  match toks with
  | b :: rest => some (b == 1, rest)
  | [] => none

/-- Decode one credential record. -/
def decodeStream (toks : List Nat) : Option (Stream × List Nat) :=
  match decodeString toks with
  | none => none
  | some (id, t1) =>
    match decodeString t1 with
    | none => none
    | some (app, t2) =>
      match decodeString t2 with
      | none => none
      | some (name, t3) =>
        match decodeString t3 with
        | none => none
        | some (key, t4) =>
          match decodeInt t4 with
          | none => none
          | some (expire, t5) =>
            match decodeString t5 with
            | none => none
            | some (notes, t6) =>
              match decodeBool t6 with
              | none => none
              | some (blocked, t7) =>
                match decodeBool t7 with
                | none => none
                | some (active, t8) =>
                  some (⟨id, app, name, key, expire, notes, blocked, active⟩, t8)

/-- Decode `n` records. -/
def decodeStreams : Nat → List Nat → Option (List Stream × List Nat)
  | 0, toks => some ([], toks)
  | n + 1, toks =>
    match decodeStream toks with
    | none => none
    | some (s, rest) =>
      match decodeStreams n rest with
      | none => none
      | some (l, rest2) => some (s :: l, rest2)

/-- Embedding of `Store.read` restricted to its deserialization content: the
whole blob must parse back into a state. -/
def read (blob : List Nat) : Option State :=
  match blob with
  | [] => none
  | n :: rest =>
    match decodeList n rest with
    | none => none
    | some (secret, t1) =>
      match decodeString t1 with
      | none => none
      | some (url, t2) =>
        match t2 with
        | [] => none
        | count :: t3 =>
          match decodeStreams count t3 with
          | none => none
          | some (streams, rest2) =>
            match rest2 with
            | [] => some ⟨secret, url, streams⟩
            | _ => none

theorem decodeList_append (l r : List Nat) :
    decodeList l.length (l ++ r) = some (l, r) := by
  induction l with
  | nil => rfl
  | cons t ts ih =>
    rw [List.length_cons, List.cons_append, decodeList, ih]
    rfl

theorem decodeString_append (s : String) (r : List Nat) :
    decodeString (encodeString s ++ r) = some (s, r) := by
  rw [encodeString, List.cons_append, decodeString]
  have hlen : s.data.length = (s.data.map Char.toNat).length :=
    (List.length_map s.data Char.toNat).symm
  rw [hlen, decodeList_append (s.data.map Char.toNat) r]
  have hchars : (s.data.map Char.toNat).map Char.ofNat = s.data := by
    rw [List.map_map]
    have : (Char.ofNat ∘ Char.toNat) = id := by
      funext c
      exact Char.ofNat_toNat c
    rw [this, List.map_id]
  simp only [Option.map_some']
  rw [hchars]

theorem decodeInt_append (i : Int) (r : List Nat) :
    decodeInt (encodeInt i ++ r) = some (i, r) := by
  rw [encodeInt]
  by_cases h : i < 0
  · rw [if_pos h, List.cons_append, List.cons_append, List.nil_append, decodeInt,
      if_pos rfl, Int.toNat_of_nonneg (by omega), neg_neg]
  · rw [if_neg h, List.cons_append, List.cons_append, List.nil_append, decodeInt,
      if_neg (by omega), Int.toNat_of_nonneg (by omega)]

theorem decodeBool_append (b : Bool) (r : List Nat) :
    decodeBool (encodeBool b ++ r) = some (b, r) := by
  cases b
  · rfl
  · rfl

theorem decodeStream_append (s : Stream) (r : List Nat) :
    decodeStream (encodeStream s ++ r) = some (s, r) := by
  rw [encodeStream]
  simp only [List.append_assoc]
  rw [decodeStream, decodeString_append]
  dsimp only
  rw [decodeString_append]
  dsimp only
  rw [decodeString_append]
  dsimp only
  rw [decodeString_append]
  dsimp only
  rw [decodeInt_append]
  dsimp only
  rw [decodeString_append]
  dsimp only
  rw [decodeBool_append]
  dsimp only
  rw [decodeBool_append]

theorem decodeStreams_append (l : List Stream) (r : List Nat) :
    decodeStreams l.length (encodeStreams l ++ r) = some (l, r) := by
  induction l with
  | nil => rfl
  | cons s rest ih =>
    rw [List.length_cons, encodeStreams, List.append_assoc, decodeStreams,
      decodeStream_append]
    dsimp only
    rw [ih]

/-- C8: loading a saved registry state restores a state equal to the original
in every field of every record — in particular the -1 never-expiry sentinel
and an empty control-plane URL survive the round-trip exactly. -/
theorem persistence_roundtrip_c8 (st : State) : read (save st) = some st := by
  rw [save, read]
  rw [decodeList_append st.Secret]
  dsimp only
  rw [decodeString_append st.CtrlUrl]
  dsimp only
  have := decodeStreams_append st.Streams []
  rw [List.append_nil] at this
  rw [this]

end RtmpAuth
